import Mathlib

/-!
Verification of `line_sticker_resize.py` (LineResize).

This file shallowly embeds the pipeline of the source file
`src/line_sticker_resize.py`: hex-color parsing, squared color distance,
corner-based background detection, soft background keying, and
resize-and-pad to a 370×320 RGBA canvas.  Python machine behaviour is
modelled as follows:

* Strings are `List Char`, restricted to the ASCII fragment (the model's
  whitespace set is the ASCII part of Python's `str.isspace`).
* Python `int(s, 16)` applied to the two-character slices taken by the
  source is modelled by `pyIntHex2`, which follows CPython's grammar for a
  two-character numeral: two hex digits, or a single hex digit with one
  adjacent whitespace character, or a sign followed by a hex digit.
* Exceptions are modelled by `Except PyError`.
* The keying formula `int(a * (dist_sq / tol_sq) ** 0.5)` is modelled by
  its exact real value `⌊a·√(distSq/tolSq)⌋`, which equals
  `Nat.sqrt (a*a*distSq / tolSq)`; the claims proved below (monotonicity,
  exact-match, out-of-tolerance, frame conditions) are insensitive to the
  sub-ulp difference between IEEE-double evaluation and the exact value.
* `Image.resize(size, LANCZOS)` is modelled by `pilResize`: Pillow returns
  a copy when the requested size equals the current size (`Image.resize`
  short-circuits, and `Resample.c` copies when no pass is needed), and
  otherwise produces an image of exactly the requested size whose pixels
  come from the resampling kernel.  The Lanczos kernel itself is external
  library code; it is modelled only up to its output dimensions (a
  box-sampling stand-in supplies pixel values), and no theorem below
  depends on resampled pixel values.
* `canvas.paste(resized, (x, y), resized)` is modelled from Pillow's
  `Paste.c`: with an RGBA mask the alpha band is the mask, and every
  channel of a covered pixel is blended by
  `BLEND(m, dst, src) = MULDIV255(dst, 255-m) + MULDIV255(src, m)` with
  `MULDIV255(a,b) = ((t >> 8) + t) >> 8` where `t = a*b + 128`.
-/

/-- Error taxonomy of the spec (§7) plus the Python `ZeroDivisionError`
that the source can raise in `make_bg_transparent`. -/
inductive PyError where
  | invalidFormat
  | invalidDimensions
  | zeroDivision
deriving DecidableEq, Repr

/-- ASCII part of Python's whitespace (`str.strip` / `int` accept these). -/
def isPySpace (c : Char) : Bool :=
  c.toNat = 32 ∨ c.toNat = 9 ∨ c.toNat = 10 ∨ c.toNat = 11 ∨ c.toNat = 12 ∨
    c.toNat = 13 ∨ c.toNat = 28 ∨ c.toNat = 29 ∨ c.toNat = 30 ∨ c.toNat = 31

/-- Hex digit: `0-9`, `a-f`, `A-F`. -/
def isHexDigitC (c : Char) : Bool :=
  (48 ≤ c.toNat ∧ c.toNat ≤ 57) ∨ (97 ≤ c.toNat ∧ c.toNat ≤ 102) ∨
    (65 ≤ c.toNat ∧ c.toNat ≤ 70)

/-- Value of a hex digit (0 for non-digits; only used under `isHexDigitC`). -/
def hexVal (c : Char) : ℕ :=
  if 48 ≤ c.toNat ∧ c.toNat ≤ 57 then c.toNat - 48
  else if 97 ≤ c.toNat ∧ c.toNat ≤ 102 then c.toNat - 87
  else if 65 ≤ c.toNat ∧ c.toNat ≤ 70 then c.toNat - 55
  else 0

/-- Python `int(s, 16)` on a two-character string, CPython numeral grammar
restricted to length two: `[ws] digit [ws]` with an optional sign in place
of the whitespace.  Returns `none` where CPython raises `ValueError`. -/
def pyIntHex2 (a b : Char) : Option ℤ :=
  if isHexDigitC a ∧ isHexDigitC b then some (16 * (hexVal a : ℤ) + hexVal b)
  else if isPySpace a ∧ isHexDigitC b then some ((hexVal b : ℤ))
  else if isHexDigitC a ∧ isPySpace b then some ((hexVal a : ℤ))
  else if a.toNat = 43 ∧ isHexDigitC b then some ((hexVal b : ℤ))
  else if a.toNat = 45 ∧ isHexDigitC b then some (-(hexVal b : ℤ))
  else none

/-- Python `str.strip()` (ASCII whitespace fragment). -/
def pyStrip (s : List Char) : List Char :=
  ((s.dropWhile isPySpace).reverse.dropWhile isPySpace).reverse

/-- `if s.startswith('#'): s = s[1:]` — drop one leading `'#'` (code 35). -/
def stripHash (s : List Char) : List Char :=
  match s with
  | c :: rest => if c.toNat = 35 then rest else c :: rest
  | [] => []

/-- `if len(s) == 3: s = ''.join(ch*2 for ch in s)` — double each char. -/
def double3 (s : List Char) : List Char :=
  if s.length = 3 then s.flatMap (fun c => [c, c]) else s

/-- `parse_hex_color` from the source: strip, drop one `'#'`, double a
3-char form, require length 6, then parse the three 2-char slices with
Python `int(·, 16)`.  Any failure is the spec's `InvalidFormat`. -/
def parse_hex_color (s : List Char) : Except PyError (ℤ × ℤ × ℤ) :=
  let t := double3 (stripHash (pyStrip s))
  if t.length = 6 then
    match pyIntHex2 (t.getD 0 ' ') (t.getD 1 ' '),
          pyIntHex2 (t.getD 2 ' ') (t.getD 3 ' '),
          pyIntHex2 (t.getD 4 ' ') (t.getD 5 ' ') with
    | some r, some g, some b => Except.ok (r, g, b)
    | _, _, _ => Except.error PyError.invalidFormat
  else Except.error PyError.invalidFormat

/-- Python `str.swapcase()` on ASCII: lower ↔ upper, all else fixed. -/
def pySwapChar (c : Char) : Char :=
  if 97 ≤ c.toNat ∧ c.toNat ≤ 122 then Char.ofNat (c.toNat - 32)
  else if 65 ≤ c.toNat ∧ c.toNat ≤ 90 then Char.ofNat (c.toNat + 32)
  else c

/-- `color_distance_sq` from the source: sum of squared channel differences. -/
def color_distance_sq (a b : ℤ × ℤ × ℤ) : ℤ :=
  (a.1 - b.1) ^ 2 + (a.2.1 - b.2.1) ^ 2 + (a.2.2 - b.2.2) ^ 2

/-- PIL image mode; `RGB` stands for the modes without an alpha band. -/
inductive Mode where
  | RGB
  | RGBA
deriving DecidableEq, Repr

/-- One pixel: 8-bit channels modelled as `ℕ` (well-formed images keep
every channel `≤ 255`). -/
structure Pixel where
  r : ℕ
  g : ℕ
  b : ℕ
  a : ℕ
deriving DecidableEq, Repr

/-- The RGB part of a pixel, as the `ℤ` triple fed to `color_distance_sq`. -/
def Pixel.rgb (p : Pixel) : ℤ × ℤ × ℤ :=
  ((p.r : ℤ), (p.g : ℤ), (p.b : ℤ))

/-- An image: dimensions, mode, and a pixel grid.  `pix x y` is the pixel
at column `x`, row `y` (origin top-left); values outside `[0,w)×[0,h)` are
a modelling artifact and never observed. -/
structure Image where
  w : ℕ
  h : ℕ
  mode : Mode
  pix : ℕ → ℕ → Pixel

/-- Channels of every in-range pixel are 8-bit. -/
def Image.wf8 (im : Image) : Prop :=
  ∀ x y, x < im.w → y < im.h →
    (im.pix x y).r ≤ 255 ∧ (im.pix x y).g ≤ 255 ∧
    (im.pix x y).b ≤ 255 ∧ (im.pix x y).a ≤ 255

/-- `im.convert('RGBA')`: a no-op on RGBA images; an alpha-less image
gains a fully opaque alpha band. -/
def convertRGBA (im : Image) : Image :=
  if im.mode = Mode.RGBA then im
  else { w := im.w, h := im.h, mode := Mode.RGBA,
         pix := fun x y => { im.pix x y with a := 255 } }

/-- `Image.new('RGBA', (w, h), fill)`. -/
def Image.new (w h : ℕ) (fill : Pixel) : Image :=
  { w := w, h := h, mode := Mode.RGBA, pix := fun _ _ => fill }

/-- Distinct elements of a list in order of first occurrence — the
iteration order of a Python `Counter` built from the list. -/
def uniqueFirst : List (ℕ × ℕ × ℕ) → List (ℕ × ℕ × ℕ)
  | [] => []
  | c :: rest => c :: uniqueFirst (rest.filter (fun d => d ≠ c))
termination_by l => l.length
decreasing_by
  simp only [List.length_cons]
  exact Nat.lt_succ_of_le (List.length_filter_le _ _)

/-- The RGB triples sampled by `detect_bg_color`: the four corners
`(0,0), (w-1,0), (0,h-1), (w-1,h-1)` of the RGBA-converted image. -/
def cornerColors (im : Image) : List (ℕ × ℕ × ℕ) :=
  let px := convertRGBA im
  [((px.pix 0 0).r, (px.pix 0 0).g, (px.pix 0 0).b),
   ((px.pix (px.w - 1) 0).r, (px.pix (px.w - 1) 0).g, (px.pix (px.w - 1) 0).b),
   ((px.pix 0 (px.h - 1)).r, (px.pix 0 (px.h - 1)).g, (px.pix 0 (px.h - 1)).b),
   ((px.pix (px.w - 1) (px.h - 1)).r, (px.pix (px.w - 1) (px.h - 1)).g,
     (px.pix (px.w - 1) (px.h - 1)).b)]

/-- `max_freq` of the source: the count of the most frequent color
(`cnt[0][1]` of `Counter.most_common`, which sorts by count descending). -/
def bgMaxFreq (colors : List (ℕ × ℕ × ℕ)) : ℕ :=
  ((uniqueFirst colors).map (fun c => colors.count c)).foldr max 0

/-- `candidates` of the source: the distinct colors of maximal count, in
first-occurrence order (the tie order `Counter.most_common` yields). -/
def bgCandidates (colors : List (ℕ × ℕ × ℕ)) : List (ℕ × ℕ × ℕ) :=
  (uniqueFirst colors).filter (fun c => colors.count c = bgMaxFreq colors)

/-- `detect_bg_color` from the source: count the four corner colors; a
strict mode wins; on a tie the tied maximum-frequency colors are averaged
channel-wise with floor division; an empty sample falls back to white. -/
def detect_bg_color (im : Image) : ℕ × ℕ × ℕ :=
  if uniqueFirst (cornerColors im) = [] then (255, 255, 255)
  else if (bgCandidates (cornerColors im)).length = 1 then
    (bgCandidates (cornerColors im)).headD (255, 255, 255)
  else
    (((bgCandidates (cornerColors im)).map (fun c => c.1)).sum /
        (bgCandidates (cornerColors im)).length,
     ((bgCandidates (cornerColors im)).map (fun c => c.2.1)).sum /
        (bgCandidates (cornerColors im)).length,
     ((bgCandidates (cornerColors im)).map (fun c => c.2.2)).sum /
        (bgCandidates (cornerColors im)).length)

/-- Per-pixel body of the keying loop in `make_bg_transparent`, for
`tolSq ≠ 0`.  The source computes `int(a * (dist_sq / tol_sq) ** 0.5)`;
the exact real value of that expression is
`⌊a·√(distSq/tolSq)⌋ = Nat.sqrt (a*a*distSq / tolSq)`. -/
def keyPixel (bg : ℤ × ℤ × ℤ) (tolSq : ℤ) (p : Pixel) : Pixel :=
  if p.a = 0 then p
  else if color_distance_sq p.rgb bg ≤ tolSq then
    { p with a :=
        Nat.sqrt (p.a * p.a * (color_distance_sq p.rgb bg).toNat / tolSq.toNat) }
  else p

/-- `make_bg_transparent` from the source: convert to RGBA, set
`tol_sq = tolerance² · 3`, and key every pixel with positive alpha whose
squared distance from `bg` is within `tol_sq`.  When `tol_sq = 0` and some
in-range pixel enters the keyed branch, the source's
`dist_sq / tol_sq` raises `ZeroDivisionError`. -/
def make_bg_transparent (im : Image) (bg : ℤ × ℤ × ℤ) (tolerance : ℤ) :
    Except PyError Image :=
  let img := convertRGBA im
  let tolSq := tolerance * tolerance * 3
  if tolSq = 0 ∧ ∃ y < img.h, ∃ x < img.w,
      (img.pix x y).a ≠ 0 ∧ color_distance_sq (img.pix x y).rgb bg ≤ tolSq then
    Except.error PyError.zeroDivision
  else
    Except.ok { img with pix := fun x y => keyPixel bg tolSq (img.pix x y) }

/-- `MULDIV255` from Pillow's `Paste.c`: `t = a*b + 128` then
`((t >> 8) + t) >> 8` — the usual rounding approximation of `a*b/255`. -/
def muldiv255 (a b : ℕ) : ℕ :=
  ((a * b + 128) >>> 8 + (a * b + 128)) >>> 8

/-- `BLEND` from Pillow's `Paste.c`, applied to one channel with mask `m`. -/
def blendChan (dst src m : ℕ) : ℕ :=
  muldiv255 dst (255 - m) + muldiv255 src m

/-- Blend of one covered pixel under `paste` with an RGBA mask: every
channel (alpha included) is blended with the mask value `m` = source alpha. -/
def blendPixel (dst src : Pixel) : Pixel :=
  { r := blendChan dst.r src.r src.a,
    g := blendChan dst.g src.g src.a,
    b := blendChan dst.b src.b src.a,
    a := blendChan dst.a src.a src.a }

/-- `canvas.paste(src, (ox, oy), src)` from Pillow: inside the pasted box
(clipped to the canvas) each channel is mask-blended with the source's
alpha band; outside the box the canvas is untouched. -/
def paste (dst src : Image) (ox oy : ℤ) : Image :=
  { dst with pix := fun x y =>
      if x < dst.w ∧ y < dst.h ∧
         ox ≤ (x : ℤ) ∧ (x : ℤ) < ox + src.w ∧
         oy ≤ (y : ℤ) ∧ (y : ℤ) < oy + src.h then
        let s := src.pix ((x : ℤ) - ox).toNat ((y : ℤ) - oy).toNat
        blendPixel (dst.pix x y) s
      else dst.pix x y }

/-- Stand-in pixel sampler for the Lanczos kernel (external Pillow code):
box-position sampling.  No theorem below depends on these values. -/
def resampleStandIn (im : Image) (nw nh : ℕ) : ℕ → ℕ → Pixel :=
  fun x y => im.pix (x * im.w / nw) (y * im.h / nh)

/-- `im.resize((nw, nh), LANCZOS)`: Pillow returns a copy when the
requested size equals the current size (`Image.resize` short-circuits and
`Resample.c` copies when no pass is needed); otherwise an image of exactly
the requested size, pixels from the resampling kernel. -/
def pilResize (im : Image) (nw nh : ℕ) : Image :=
  if nw = im.w ∧ nh = im.h then im
  else { w := nw, h := nh, mode := im.mode, pix := resampleStandIn im nw nh }

/-- Python `round` on the exact rational value: round half to even. -/
def pyRound (q : ℚ) : ℤ :=
  if q - ⌊q⌋ < 1 / 2 then ⌊q⌋
  else if 1 / 2 < q - ⌊q⌋ then ⌊q⌋ + 1
  else if 2 ∣ ⌊q⌋ then ⌊q⌋ else ⌊q⌋ + 1

/-- `resize_and_pad` from the source: convert to RGBA, reject zero
dimensions, scale by `min(target_w/w, target_h/h)` (exact rational in the
model; the source uses IEEE doubles), round the scaled dimensions (Python
`round`, half to even) with a floor of 1, resize, and paste centered onto
a fully transparent `target_w × target_h` RGBA canvas, with the resized
image as its own paste mask.  Offsets use Python's floor division. -/
def resize_and_pad (im : Image) (target_w target_h : ℕ) :
    Except PyError Image :=
  let img := convertRGBA im
  if img.w = 0 ∨ img.h = 0 then Except.error PyError.invalidDimensions
  else
    let scale : ℚ := min ((target_w : ℚ) / img.w) ((target_h : ℚ) / img.h)
    let new_w := max 1 (pyRound (img.w * scale)).toNat
    let new_h := max 1 (pyRound (img.h * scale)).toNat
    let resized := pilResize img new_w new_h
    let board := Image.new target_w target_h ⟨0, 0, 0, 0⟩
    let x := Int.fdiv ((target_w : ℤ) - new_w) 2
    let y := Int.fdiv ((target_h : ℤ) - new_h) 2
    Except.ok (paste board resized x y)

/-- Spec-side formula (claim C5 wording): `scale = min(370/width, 320/height)`. -/
def specScale (w h : ℕ) : ℚ :=
  min ((370 : ℚ) / w) ((320 : ℚ) / h)

/-- Spec-side formula: `newW = round(width × scale)` floored to a minimum of 1. -/
def specNewW (w h : ℕ) : ℕ :=
  max 1 (pyRound (w * specScale w h)).toNat

/-- Spec-side formula: `newH = round(height × scale)` floored to a minimum of 1. -/
def specNewH (w h : ℕ) : ℕ :=
  max 1 (pyRound (h * specScale w h)).toNat

/-- Spec-side formula: horizontal offset `(370 − newW) // 2`. -/
def specOffX (w h : ℕ) : ℤ :=
  Int.fdiv ((370 : ℤ) - specNewW w h) 2

/-- Spec-side formula: vertical offset `(320 − newH) // 2`. -/
def specOffY (w h : ℕ) : ℤ :=
  Int.fdiv ((320 : ℤ) - specNewH w h) 2

/-! ### Helper lemmas -/

theorem convertRGBA_of_rgba {im : Image} (h : im.mode = Mode.RGBA) :
    convertRGBA im = im := by
  simp [convertRGBA, h]

theorem convertRGBA_w (im : Image) : (convertRGBA im).w = im.w := by
  unfold convertRGBA
  split <;> rfl

theorem convertRGBA_h (im : Image) : (convertRGBA im).h = im.h := by
  unfold convertRGBA
  split <;> rfl

theorem color_distance_sq_nonneg (a b : ℤ × ℤ × ℤ) :
    0 ≤ color_distance_sq a b := by
  unfold color_distance_sq
  positivity

theorem color_distance_sq_self (a : ℤ × ℤ × ℤ) : color_distance_sq a a = 0 := by
  simp [color_distance_sq]

theorem sqrt_alpha_le {a dN tN : ℕ} (h : dN ≤ tN) :
    Nat.sqrt (a * a * dN / tN) ≤ a := by
  rcases Nat.eq_zero_or_pos tN with h0 | hpos
  · have hd : dN = 0 := by omega
    simp [h0, hd]
  · calc Nat.sqrt (a * a * dN / tN) ≤ Nat.sqrt (a * a * tN / tN) :=
          Nat.sqrt_le_sqrt (Nat.div_le_div_right (Nat.mul_le_mul_left _ h))
      _ = Nat.sqrt (a * a) := by rw [Nat.mul_div_cancel _ hpos]
      _ = a := Nat.sqrt_eq a

theorem tolSq_pos {tol : ℤ} (h : tol ≠ 0) : 0 < tol * tol * 3 := by
  have h2 : (0 : ℤ) < tol * tol := mul_self_pos.mpr h
  linarith

theorem make_bg_ok {im : Image} {bg : ℤ × ℤ × ℤ} {tol : ℤ}
    (hmode : im.mode = Mode.RGBA) (h : tol ≠ 0) :
    make_bg_transparent im bg tol =
      Except.ok { im with pix := fun x y => keyPixel bg (tol * tol * 3) (im.pix x y) } := by
  unfold make_bg_transparent
  rw [convertRGBA_of_rgba hmode, if_neg]
  rintro ⟨h0, -⟩
  exact absurd h0 (tolSq_pos h).ne'

theorem keyPixel_of_a0 {bg : ℤ × ℤ × ℤ} {tolSq : ℤ} {p : Pixel} (h : p.a = 0) :
    keyPixel bg tolSq p = p := by
  simp [keyPixel, h]

theorem keyPixel_alpha_le (bg : ℤ × ℤ × ℤ) {tolSq : ℤ} (p : Pixel) :
    (keyPixel bg tolSq p).a ≤ p.a := by
  unfold keyPixel
  split_ifs with h1 h2
  · exact le_refl _
  · exact sqrt_alpha_le (Int.toNat_le_toNat h2)
  · exact le_refl _

theorem keyPixel_far {bg : ℤ × ℤ × ℤ} {tolSq : ℤ} {p : Pixel}
    (h : tolSq < color_distance_sq p.rgb bg) : keyPixel bg tolSq p = p := by
  unfold keyPixel
  split_ifs with h1 h2
  · rfl
  · exact absurd h2 (not_le.mpr h)
  · rfl

theorem keyPixel_exact {bg : ℤ × ℤ × ℤ} {tolSq : ℤ} {p : Pixel}
    (hts : 0 ≤ tolSq) (h : p.rgb = bg) : (keyPixel bg tolSq p).a = 0 := by
  unfold keyPixel
  split_ifs with h1 h2
  · exact h1
  · simp [h, color_distance_sq_self]
  · rw [h, color_distance_sq_self] at h2
    exact absurd hts h2

theorem keyPixel_rgb (bg : ℤ × ℤ × ℤ) (tolSq : ℤ) (p : Pixel) :
    (keyPixel bg tolSq p).r = p.r ∧ (keyPixel bg tolSq p).g = p.g ∧
      (keyPixel bg tolSq p).b = p.b := by
  unfold keyPixel
  split_ifs <;> exact ⟨rfl, rfl, rfl⟩

/-! ### Claims about the background keyer -/

/-- C2: the claim says a tolerance of 0 keys exactly-matching pixels to
full transparency with no division by zero; the source instead evaluates
`dist_sq / tol_sq` with `tol_sq = 0` on any exact-match pixel of positive
alpha and raises `ZeroDivisionError`.  Evaluation at the failing input: a
1×1 image whose only pixel equals the background color. -/
theorem make_bg_zero_tolerance_crash :
    make_bg_transparent ⟨1, 1, Mode.RGBA, fun _ _ => ⟨10, 20, 30, 255⟩⟩
      (10, 20, 30) 0 = Except.error PyError.zeroDivision := by
  rfl

/-- C3: for every RGBA image, background color, and positive tolerance,
keying succeeds, never increases any pixel's alpha, and leaves pixels that
were already fully transparent completely unchanged. -/
theorem keying_alpha_monotone (im : Image) (bg : ℤ × ℤ × ℤ) (tol : ℤ)
    (hmode : im.mode = Mode.RGBA) (htol : 0 < tol) :
    ∃ out, make_bg_transparent im bg tol = Except.ok out ∧
      (∀ x y, (out.pix x y).a ≤ (im.pix x y).a) ∧
      (∀ x y, (im.pix x y).a = 0 → out.pix x y = im.pix x y) := by
  refine ⟨_, make_bg_ok hmode htol.ne', ?_, ?_⟩
  · intro x y
    exact keyPixel_alpha_le bg (im.pix x y)
  · intro x y h
    exact keyPixel_of_a0 h

/-- C3 witness: the monotonicity theorem applied to a concrete 1×1 image
with alpha 200 and tolerance 18. -/
theorem keying_alpha_monotone_witness :
    ∃ out, make_bg_transparent ⟨1, 1, Mode.RGBA, fun _ _ => ⟨9, 9, 9, 200⟩⟩
        (0, 0, 0) 18 = Except.ok out ∧
      (∀ x y, (out.pix x y).a ≤
        ((⟨1, 1, Mode.RGBA, fun _ _ => ⟨9, 9, 9, 200⟩⟩ : Image).pix x y).a) ∧
      (∀ x y, ((⟨1, 1, Mode.RGBA, fun _ _ => ⟨9, 9, 9, 200⟩⟩ : Image).pix x y).a = 0 →
        out.pix x y = (⟨1, 1, Mode.RGBA, fun _ _ => ⟨9, 9, 9, 200⟩⟩ : Image).pix x y) :=
  keying_alpha_monotone ⟨1, 1, Mode.RGBA, fun _ _ => ⟨9, 9, 9, 200⟩⟩
    (0, 0, 0) 18 rfl (by decide)

/-- C4: with positive tolerance, every pixel whose RGB equals the
background exactly ends with alpha 0, and every pixel strictly outside the
tolerance sphere (squared distance above tolerance²·3) is unchanged. -/
theorem keying_exact_and_far (im : Image) (bg : ℤ × ℤ × ℤ) (tol : ℤ)
    (hmode : im.mode = Mode.RGBA) (htol : 0 < tol) :
    ∃ out, make_bg_transparent im bg tol = Except.ok out ∧
      (∀ x y, (im.pix x y).rgb = bg → (out.pix x y).a = 0) ∧
      (∀ x y, tol * tol * 3 < color_distance_sq (im.pix x y).rgb bg →
        out.pix x y = im.pix x y) := by
  refine ⟨_, make_bg_ok hmode htol.ne', ?_, ?_⟩
  · intro x y h
    exact keyPixel_exact (tolSq_pos htol.ne').le h
  · intro x y h
    exact keyPixel_far h

/-- C4 witness: the theorem applied to a concrete 1×1 background-colored
image (alpha drops to 0) — the far-pixel clause holds vacuously there. -/
theorem keying_exact_and_far_witness :
    ∃ out, make_bg_transparent ⟨1, 1, Mode.RGBA, fun _ _ => ⟨7, 8, 9, 255⟩⟩
        (7, 8, 9) 18 = Except.ok out ∧
      (∀ x y, ((⟨1, 1, Mode.RGBA, fun _ _ => ⟨7, 8, 9, 255⟩⟩ : Image).pix x y).rgb =
          ((7 : ℤ), (8 : ℤ), (9 : ℤ)) → (out.pix x y).a = 0) ∧
      (∀ x y, (18 : ℤ) * 18 * 3 <
          color_distance_sq ((⟨1, 1, Mode.RGBA, fun _ _ => ⟨7, 8, 9, 255⟩⟩ : Image).pix x y).rgb
            (7, 8, 9) →
        out.pix x y = (⟨1, 1, Mode.RGBA, fun _ _ => ⟨7, 8, 9, 255⟩⟩ : Image).pix x y) :=
  keying_exact_and_far ⟨1, 1, Mode.RGBA, fun _ _ => ⟨7, 8, 9, 255⟩⟩
    (7, 8, 9) 18 rfl (by decide)

/-- C9: with positive tolerance, keying changes at most the alpha channel —
the image's dimensions and every pixel's red, green and blue values are
identical before and after. -/
theorem keying_frame_condition (im : Image) (bg : ℤ × ℤ × ℤ) (tol : ℤ)
    (hmode : im.mode = Mode.RGBA) (htol : 0 < tol) :
    ∃ out, make_bg_transparent im bg tol = Except.ok out ∧
      out.w = im.w ∧ out.h = im.h ∧
      (∀ x y, (out.pix x y).r = (im.pix x y).r ∧
        (out.pix x y).g = (im.pix x y).g ∧ (out.pix x y).b = (im.pix x y).b) := by
  refine ⟨_, make_bg_ok hmode htol.ne', rfl, rfl, ?_⟩
  intro x y
  exact keyPixel_rgb bg (tol * tol * 3) (im.pix x y)

/-- C9 witness: the frame-condition theorem applied to a concrete 2×1
image with tolerance 5. -/
theorem keying_frame_condition_witness :
    ∃ out, make_bg_transparent ⟨2, 1, Mode.RGBA, fun x _ => ⟨x, 2, 3, 255⟩⟩
        (0, 0, 0) 5 = Except.ok out ∧
      out.w = 2 ∧ out.h = 1 ∧
      (∀ x y, (out.pix x y).r = ((⟨2, 1, Mode.RGBA, fun x _ => ⟨x, 2, 3, 255⟩⟩ : Image).pix x y).r ∧
        (out.pix x y).g = ((⟨2, 1, Mode.RGBA, fun x _ => ⟨x, 2, 3, 255⟩⟩ : Image).pix x y).g ∧
        (out.pix x y).b = ((⟨2, 1, Mode.RGBA, fun x _ => ⟨x, 2, 3, 255⟩⟩ : Image).pix x y).b) :=
  keying_frame_condition ⟨2, 1, Mode.RGBA, fun x _ => ⟨x, 2, 3, 255⟩⟩
    (0, 0, 0) 5 rfl (by decide)

/-! ### Claims about resize-and-pad -/

theorem resize_and_pad_pos {im : Image} (tw th : ℕ)
    (hw : im.w ≠ 0) (hh : im.h ≠ 0) :
    resize_and_pad im tw th =
      (let img := convertRGBA im
       let scale : ℚ := min ((tw : ℚ) / img.w) ((th : ℚ) / img.h)
       let new_w := max 1 (pyRound (img.w * scale)).toNat
       let new_h := max 1 (pyRound (img.h * scale)).toNat
       Except.ok (paste (Image.new tw th ⟨0, 0, 0, 0⟩) (pilResize img new_w new_h)
         (Int.fdiv ((tw : ℤ) - new_w) 2) (Int.fdiv ((th : ℤ) - new_h) 2))) := by
  unfold resize_and_pad
  rw [if_neg]
  rw [convertRGBA_w, convertRGBA_h]
  simp [hw, hh]

/-- C1: on any source with positive width and height the transformer
returns an image that is exactly 370×320 in RGBA mode, and it fails with
the invalid-dimensions error when either source dimension is zero. -/
theorem resize_and_pad_shape (im : Image) :
    (0 < im.w → 0 < im.h →
      ∃ out, resize_and_pad im 370 320 = Except.ok out ∧
        out.w = 370 ∧ out.h = 320 ∧ out.mode = Mode.RGBA) ∧
    ((im.w = 0 ∨ im.h = 0) →
      resize_and_pad im 370 320 = Except.error PyError.invalidDimensions) := by
  constructor
  · intro hw hh
    exact ⟨_, resize_and_pad_pos 370 320 hw.ne' hh.ne', rfl, rfl, rfl⟩
  · intro hz
    unfold resize_and_pad
    rw [if_pos]
    rw [convertRGBA_w, convertRGBA_h]
    exact hz

/-- C1 witness: the shape theorem applied on both sides, at a 10×1000
image and at a 0×5 image. -/
theorem resize_and_pad_shape_witness :
    (∃ out, resize_and_pad ⟨10, 1000, Mode.RGBA, fun _ _ => ⟨1, 2, 3, 4⟩⟩ 370 320 =
        Except.ok out ∧ out.w = 370 ∧ out.h = 320 ∧ out.mode = Mode.RGBA) ∧
    resize_and_pad ⟨0, 5, Mode.RGBA, fun _ _ => ⟨1, 2, 3, 4⟩⟩ 370 320 =
      Except.error PyError.invalidDimensions :=
  ⟨(resize_and_pad_shape ⟨10, 1000, Mode.RGBA, fun _ _ => ⟨1, 2, 3, 4⟩⟩).1
      (by decide) (by decide),
   (resize_and_pad_shape ⟨0, 5, Mode.RGBA, fun _ _ => ⟨1, 2, 3, 4⟩⟩).2 (Or.inl rfl)⟩

theorem resize_and_pad_spec_form {im : Image} (hw : im.w ≠ 0) (hh : im.h ≠ 0) :
    resize_and_pad im 370 320 =
      Except.ok (paste (Image.new 370 320 ⟨0, 0, 0, 0⟩)
        (pilResize (convertRGBA im) (specNewW im.w im.h) (specNewH im.w im.h))
        (specOffX im.w im.h) (specOffY im.w im.h)) := by
  rw [resize_and_pad_pos 370 320 hw hh]
  simp only [convertRGBA_w, convertRGBA_h, specNewW, specNewH, specOffX,
    specOffY, specScale, Nat.cast_ofNat]

theorem pyRound_intCast (n : ℤ) : pyRound ((n : ℚ)) = n := by
  unfold pyRound
  rw [Int.floor_intCast]
  norm_num

theorem specScale_100_200 : specScale 100 200 = 8 / 5 := by
  unfold specScale
  norm_num [min_def]

theorem specNewW_100_200 : specNewW 100 200 = 160 := by
  unfold specNewW
  rw [specScale_100_200]
  have h : ((100 : ℕ) : ℚ) * (8 / 5) = ((160 : ℤ) : ℚ) := by norm_num
  rw [h, pyRound_intCast]
  decide

theorem specNewH_100_200 : specNewH 100 200 = 320 := by
  unfold specNewH
  rw [specScale_100_200]
  have h : ((200 : ℕ) : ℚ) * (8 / 5) = ((320 : ℤ) : ℚ) := by norm_num
  rw [h, pyRound_intCast]
  decide

theorem specOffX_100_200 : specOffX 100 200 = 105 := by
  unfold specOffX
  rw [specNewW_100_200]
  decide

theorem specOffY_100_200 : specOffY 100 200 = 0 := by
  unfold specOffY
  rw [specNewH_100_200]
  decide

/-- C5: resize-and-pad follows the spec formulas — scale
`min(370/w, 320/h)`, rounded scaled dimensions floored at 1, and centered
floor-division offsets — and on a 100×200 input those formulas give a
160×320 region at horizontal offset 105. -/
theorem resize_and_pad_formulas :
    (∀ im : Image, 0 < im.w → 0 < im.h →
      resize_and_pad im 370 320 =
        Except.ok (paste (Image.new 370 320 ⟨0, 0, 0, 0⟩)
          (pilResize (convertRGBA im) (specNewW im.w im.h) (specNewH im.w im.h))
          (specOffX im.w im.h) (specOffY im.w im.h))) ∧
    specNewW 100 200 = 160 ∧ specNewH 100 200 = 320 ∧
      specOffX 100 200 = 105 ∧ specOffY 100 200 = 0 :=
  ⟨fun _ hw hh => resize_and_pad_spec_form hw.ne' hh.ne',
   specNewW_100_200, specNewH_100_200, specOffX_100_200, specOffY_100_200⟩

/-- C5 witness: the formula theorem applied to a concrete 100×200 image. -/
theorem resize_and_pad_formulas_witness :
    resize_and_pad ⟨100, 200, Mode.RGBA, fun _ _ => ⟨3, 4, 5, 255⟩⟩ 370 320 =
      Except.ok (paste (Image.new 370 320 ⟨0, 0, 0, 0⟩)
        (pilResize (convertRGBA ⟨100, 200, Mode.RGBA, fun _ _ => ⟨3, 4, 5, 255⟩⟩)
          (specNewW 100 200) (specNewH 100 200))
        (specOffX 100 200) (specOffY 100 200)) :=
  resize_and_pad_formulas.1 ⟨100, 200, Mode.RGBA, fun _ _ => ⟨3, 4, 5, 255⟩⟩
    (by decide) (by decide)

theorem muldiv255_zero (d : ℕ) : muldiv255 d 0 = 0 := by
  unfold muldiv255
  rw [Nat.mul_zero]
  decide

set_option maxRecDepth 4000 in
theorem muldiv255_full : ∀ c < 256, muldiv255 c 255 = c := by
  decide

theorem blendChan_alpha255 {c : ℕ} (hc : c ≤ 255) (d : ℕ) :
    blendChan d c 255 = c := by
  unfold blendChan
  rw [Nat.sub_self, muldiv255_zero, muldiv255_full c (by omega), Nat.zero_add]

theorem blendPixel_alpha255 {p : Pixel} (ha : p.a = 255) (hr : p.r ≤ 255)
    (hg : p.g ≤ 255) (hb : p.b ≤ 255) (d : Pixel) : blendPixel d p = p := by
  cases p with
  | mk r g b a =>
    simp only [blendPixel] at *
    subst ha
    rw [blendChan_alpha255 hr, blendChan_alpha255 hg, blendChan_alpha255 hb,
      blendChan_alpha255 (le_refl 255)]

theorem specScale_370_320 : specScale 370 320 = 1 := by
  unfold specScale
  norm_num

theorem specNewW_370_320 : specNewW 370 320 = 370 := by
  unfold specNewW
  rw [specScale_370_320]
  have h : ((370 : ℕ) : ℚ) * 1 = ((370 : ℤ) : ℚ) := by norm_num
  rw [h, pyRound_intCast]
  decide

theorem specNewH_370_320 : specNewH 370 320 = 320 := by
  unfold specNewH
  rw [specScale_370_320]
  have h : ((320 : ℕ) : ℚ) * 1 = ((320 : ℤ) : ℚ) := by norm_num
  rw [h, pyRound_intCast]
  decide

theorem specOffX_370_320 : specOffX 370 320 = 0 := by
  unfold specOffX
  rw [specNewW_370_320]
  decide

theorem specOffY_370_320 : specOffY 370 320 = 0 := by
  unfold specOffY
  rw [specNewH_370_320]
  decide

/-- C6 counterexample: the claim asserts `resizeAndPad` is pixel-identical
on any 370×320 RGBA image; on the constant image with pixel
(255, 0, 0, 128) the output pixel at (0, 0) is (128, 0, 0, 64) — Pillow's
paste-with-alpha-mask scales every channel (alpha included) by the mask,
so a partial-alpha pixel is not preserved. -/
theorem resize_identity_counterexample :
    (resize_and_pad ⟨370, 320, Mode.RGBA, fun _ _ => ⟨255, 0, 0, 128⟩⟩
        370 320).toOption.map (fun out => out.pix 0 0) =
      some ⟨128, 0, 0, 64⟩ ∧
    (⟨255, 0, 0, 128⟩ : Pixel) ≠ ⟨128, 0, 0, 64⟩ := by
  constructor
  · rw [@resize_and_pad_spec_form ⟨370, 320, Mode.RGBA, fun _ _ => ⟨255, 0, 0, 128⟩⟩
      (by decide) (by decide)]
    show some ((paste (Image.new 370 320 ⟨0, 0, 0, 0⟩)
      (pilResize (convertRGBA ⟨370, 320, Mode.RGBA, fun _ _ => ⟨255, 0, 0, 128⟩⟩)
        (specNewW 370 320) (specNewH 370 320))
      (specOffX 370 320) (specOffY 370 320)).pix 0 0) = some ⟨128, 0, 0, 64⟩
    rw [specNewW_370_320, specNewH_370_320, specOffX_370_320, specOffY_370_320,
      convertRGBA_of_rgba rfl]
    rw [show pilResize ⟨370, 320, Mode.RGBA, fun _ _ => ⟨255, 0, 0, 128⟩⟩ 370 320 =
      ⟨370, 320, Mode.RGBA, fun _ _ => ⟨255, 0, 0, 128⟩⟩ from by
        unfold pilResize
        rw [if_pos]
        exact ⟨rfl, rfl⟩]
    decide
  · decide

theorem paste_in_box {dst src : Image} {x y : ℕ} (hx : x < dst.w)
    (hy : y < dst.h) (hxs : x < src.w) (hys : y < src.h) :
    (paste dst src 0 0).pix x y = blendPixel (dst.pix x y) (src.pix x y) := by
  have e : (paste dst src 0 0).pix x y =
      if x < dst.w ∧ y < dst.h ∧ (0 : ℤ) ≤ (x : ℤ) ∧ (x : ℤ) < 0 + src.w ∧
         (0 : ℤ) ≤ (y : ℤ) ∧ (y : ℤ) < 0 + src.h then
        blendPixel (dst.pix x y) (src.pix ((x : ℤ) - 0).toNat ((y : ℤ) - 0).toNat)
      else dst.pix x y := rfl
  rw [e, if_pos]
  · simp
  · refine ⟨hx, hy, by positivity, ?_, by positivity, ?_⟩
    · omega
    · omega

/-- C6 amended: on a 370×320 RGBA image all of whose pixels are fully
opaque, resize-and-pad is pixel-identical; in general Pillow's
paste-with-alpha-mask scales every channel of a covered pixel by its
alpha, so only alpha-255 pixels are guaranteed to be copied unchanged. -/
theorem resize_identity_alpha255 (im : Image) (hm : im.mode = Mode.RGBA)
    (hw : im.w = 370) (hh : im.h = 320) (hwf : im.wf8)
    (hop : ∀ x y, x < im.w → y < im.h → (im.pix x y).a = 255) :
    ∃ out, resize_and_pad im 370 320 = Except.ok out ∧
      ∀ x y, x < 370 → y < 320 → out.pix x y = im.pix x y := by
  refine ⟨_, resize_and_pad_spec_form (by omega) (by omega), ?_⟩
  intro x y hx hy
  have hx' : x < im.w := by omega
  have hy' : y < im.h := by omega
  rw [hw, hh, specNewW_370_320, specNewH_370_320, specOffX_370_320,
    specOffY_370_320, convertRGBA_of_rgba hm]
  rw [show pilResize im 370 320 = im from by
    unfold pilResize
    rw [if_pos]
    exact ⟨hw.symm, hh.symm⟩]
  rw [paste_in_box hx hy hx' hy']
  have hb := hwf x y hx' hy'
  exact blendPixel_alpha255 (hop x y hx' hy') hb.1 hb.2.1 hb.2.2.1 _

/-- C6 amended witness: the theorem applied to a concrete fully opaque
370×320 image. -/
theorem resize_identity_alpha255_witness :
    ∃ out, resize_and_pad ⟨370, 320, Mode.RGBA, fun _ _ => ⟨1, 2, 3, 255⟩⟩
        370 320 = Except.ok out ∧
      ∀ x y, x < 370 → y < 320 →
        out.pix x y = ((⟨370, 320, Mode.RGBA, fun _ _ => ⟨1, 2, 3, 255⟩⟩ : Image).pix x y) :=
  resize_identity_alpha255 ⟨370, 320, Mode.RGBA, fun _ _ => ⟨1, 2, 3, 255⟩⟩
    rfl rfl rfl (fun _ _ _ _ => ⟨(by decide : (1 : ℕ) ≤ 255), (by decide : (2 : ℕ) ≤ 255),
      (by decide : (3 : ℕ) ≤ 255), (by decide : (255 : ℕ) ≤ 255)⟩)
    (fun _ _ _ _ => rfl)

/-! ### Claims about hex-color parsing -/

theorem pyIntHex2_hex {a b : Char} (ha : isHexDigitC a = true)
    (hb : isHexDigitC b = true) :
    pyIntHex2 a b = some (16 * (hexVal a : ℤ) + hexVal b) := by
  simp [pyIntHex2, ha, hb]

theorem pyIntHex2_same_none {c : Char} (hc : isHexDigitC c = false) :
    pyIntHex2 c c = none := by
  simp [pyIntHex2, hc]

theorem parse_hex_of_stripped_6 {s : List Char} {c0 c1 c2 c3 c4 c5 : Char}
    (h : stripHash (pyStrip s) = [c0, c1, c2, c3, c4, c5]) :
    parse_hex_color s =
      (match pyIntHex2 c0 c1, pyIntHex2 c2 c3, pyIntHex2 c4 c5 with
       | some r, some g, some b => Except.ok (r, g, b)
       | _, _, _ => Except.error PyError.invalidFormat) := by
  unfold parse_hex_color double3
  rw [h]
  simp

theorem parse_hex_of_stripped_3 {s : List Char} {c0 c1 c2 : Char}
    (h : stripHash (pyStrip s) = [c0, c1, c2]) :
    parse_hex_color s =
      (match pyIntHex2 c0 c0, pyIntHex2 c1 c1, pyIntHex2 c2 c2 with
       | some r, some g, some b => Except.ok (r, g, b)
       | _, _, _ => Except.error PyError.invalidFormat) := by
  unfold parse_hex_color double3
  rw [h]
  simp

theorem parse_hex_bad_length {s : List Char}
    (h3 : (stripHash (pyStrip s)).length ≠ 3)
    (h6 : (stripHash (pyStrip s)).length ≠ 6) :
    parse_hex_color s = Except.error PyError.invalidFormat := by
  unfold parse_hex_color double3
  rw [if_neg h3, if_neg h6]

/-- C7 counterexample: the claim says any input containing a non-hex
character fails with `InvalidFormat`, but the source parses each byte pair
with Python `int(·, 16)`, which accepts a sign before a single digit, so
"+1+1+1" parses successfully to (1, 1, 1). -/
theorem parse_hex_nonhex_accepted :
    parse_hex_color ['+', '1', '+', '1', '+', '1'] = Except.ok (1, 1, 1) ∧
    isHexDigitC '+' = false := by
  constructor
  · rfl
  · decide

/-- C7 amended: after stripping whitespace and one optional `'#'`,
a 6-hex-digit string maps to its three byte pairs and a 3-hex-digit string
to channel-doubled values (17·digit); a stripped length other than 3 or 6
fails with `InvalidFormat`, and a length-3 string with any non-hex
character also fails; but a stripped length-6 string is parsed pairwise by
Python `int(·, 16)`, which besides two hex digits also accepts a pair of a
sign or whitespace character with one hex digit (possibly negative), so
such strings succeed rather than fail. -/
theorem parse_hex_color_amended :
    (∀ s c0 c1 c2 c3 c4 c5, stripHash (pyStrip s) = [c0, c1, c2, c3, c4, c5] →
      isHexDigitC c0 = true → isHexDigitC c1 = true → isHexDigitC c2 = true →
      isHexDigitC c3 = true → isHexDigitC c4 = true → isHexDigitC c5 = true →
      parse_hex_color s = Except.ok
        ((16 * hexVal c0 + hexVal c1 : ℤ), (16 * hexVal c2 + hexVal c3 : ℤ),
         (16 * hexVal c4 + hexVal c5 : ℤ))) ∧
    (∀ s c0 c1 c2, stripHash (pyStrip s) = [c0, c1, c2] →
      isHexDigitC c0 = true → isHexDigitC c1 = true → isHexDigitC c2 = true →
      parse_hex_color s = Except.ok
        ((17 * hexVal c0 : ℤ), (17 * hexVal c1 : ℤ), (17 * hexVal c2 : ℤ))) ∧
    (∀ s, (stripHash (pyStrip s)).length ≠ 3 →
      (stripHash (pyStrip s)).length ≠ 6 →
      parse_hex_color s = Except.error PyError.invalidFormat) ∧
    (∀ s c0 c1 c2, stripHash (pyStrip s) = [c0, c1, c2] →
      (isHexDigitC c0 = false ∨ isHexDigitC c1 = false ∨ isHexDigitC c2 = false) →
      parse_hex_color s = Except.error PyError.invalidFormat) ∧
    (∀ s c0 c1 c2 c3 c4 c5 v1 v2 v3,
      stripHash (pyStrip s) = [c0, c1, c2, c3, c4, c5] →
      pyIntHex2 c0 c1 = some v1 → pyIntHex2 c2 c3 = some v2 →
      pyIntHex2 c4 c5 = some v3 →
      parse_hex_color s = Except.ok (v1, v2, v3)) ∧
    (∀ s c0 c1 c2 c3 c4 c5, stripHash (pyStrip s) = [c0, c1, c2, c3, c4, c5] →
      (pyIntHex2 c0 c1 = none ∨ pyIntHex2 c2 c3 = none ∨ pyIntHex2 c4 c5 = none) →
      parse_hex_color s = Except.error PyError.invalidFormat) := by
  refine ⟨?_, ?_, ?_, ?_, ?_, ?_⟩
  · intro s c0 c1 c2 c3 c4 c5 h h0 h1 h2 h3 h4 h5
    rw [parse_hex_of_stripped_6 h, pyIntHex2_hex h0 h1, pyIntHex2_hex h2 h3,
      pyIntHex2_hex h4 h5]
  · intro s c0 c1 c2 h h0 h1 h2
    rw [parse_hex_of_stripped_3 h, pyIntHex2_hex h0 h0, pyIntHex2_hex h1 h1,
      pyIntHex2_hex h2 h2]
    have e : ∀ v : ℕ, (16 * (v : ℤ) + v) = 17 * v := fun v => by ring
    rw [e, e, e]
  · intro s h3 h6
    exact parse_hex_bad_length h3 h6
  · intro s c0 c1 c2 h hbad
    rw [parse_hex_of_stripped_3 h]
    rcases hbad with hc | hc | hc
    · rw [pyIntHex2_same_none hc]
    · rw [pyIntHex2_same_none hc]
      cases pyIntHex2 c0 c0 <;> rfl
    · rw [pyIntHex2_same_none hc]
      cases pyIntHex2 c0 c0 <;> cases pyIntHex2 c1 c1 <;> rfl
  · intro s c0 c1 c2 c3 c4 c5 v1 v2 v3 h h1 h2 h3
    rw [parse_hex_of_stripped_6 h, h1, h2, h3]
  · intro s c0 c1 c2 c3 c4 c5 h hbad
    rw [parse_hex_of_stripped_6 h]
    rcases hbad with hc | hc | hc
    · rw [hc]
    · rw [hc]
      cases pyIntHex2 c0 c1 <;> rfl
    · rw [hc]
      cases pyIntHex2 c0 c1 <;> cases pyIntHex2 c2 c3 <;> rfl

/-- C7 witness: the amended theorem applied to concrete inputs — a
6-digit form with `'#'` and mixed case, a 3-digit form, a bad length, a
3-digit form with a non-hex character, a signed 6-character form, and a
6-character form with an unparsable pair. -/
theorem parse_hex_color_amended_witness :
    parse_hex_color ['#', 'A', '1', 'b', '2', 'C', '3'] = Except.ok (161, 178, 195) ∧
    parse_hex_color ['f', '0', 'a'] = Except.ok (255, 0, 170) ∧
    parse_hex_color ['1', '2', '3', '4', '5'] = Except.error PyError.invalidFormat ∧
    parse_hex_color ['1', 'g', '3'] = Except.error PyError.invalidFormat ∧
    parse_hex_color ['-', '1', '-', '1', '-', '1'] = Except.ok (-1, -1, -1) ∧
    parse_hex_color ['1', '2', '+', '+', '3', '4'] = Except.error PyError.invalidFormat := by
  refine ⟨?_, ?_, ?_, ?_, ?_, ?_⟩
  · exact (parse_hex_color_amended.1 ['#', 'A', '1', 'b', '2', 'C', '3']
      'A' '1' 'b' '2' 'C' '3' (by decide) (by decide) (by decide) (by decide)
      (by decide) (by decide) (by decide)).trans (congrArg Except.ok (by decide))
  · exact (parse_hex_color_amended.2.1 ['f', '0', 'a'] 'f' '0' 'a'
      (by decide) (by decide) (by decide) (by decide)).trans
      (congrArg Except.ok (by decide))
  · exact parse_hex_color_amended.2.2.1 ['1', '2', '3', '4', '5']
      (by decide) (by decide)
  · exact parse_hex_color_amended.2.2.2.1 ['1', 'g', '3'] '1' 'g' '3'
      (by decide) (Or.inr (Or.inl (by decide)))
  · exact parse_hex_color_amended.2.2.2.2.1 ['-', '1', '-', '1', '-', '1']
      '-' '1' '-' '1' '-' '1' (-1) (-1) (-1) (by decide) (by decide) (by decide)
      (by decide)
  · exact parse_hex_color_amended.2.2.2.2.2 ['1', '2', '+', '+', '3', '4']
      '1' '2' '+' '+' '3' '4' (by decide) (Or.inr (Or.inl (by decide)))

/-! ### Claims about background detection -/

theorem mem_uniqueFirst (c : ℕ × ℕ × ℕ) (l : List (ℕ × ℕ × ℕ)) :
    c ∈ uniqueFirst l ↔ c ∈ l := by
  induction l using uniqueFirst.induct with
  | case1 => simp [uniqueFirst]
  | case2 a rest ih =>
    rw [uniqueFirst]
    simp only [List.mem_cons, ih, List.mem_filter]
    constructor
    · rintro (h | ⟨h, -⟩)
      · exact Or.inl h
      · exact Or.inr h
    · rintro (h | h)
      · exact Or.inl h
      · by_cases hc : c = a
        · exact Or.inl hc
        · exact Or.inr ⟨h, by simp [hc]⟩

theorem nodup_uniqueFirst (l : List (ℕ × ℕ × ℕ)) : (uniqueFirst l).Nodup := by
  induction l using uniqueFirst.induct with
  | case1 => simp [uniqueFirst]
  | case2 a rest ih =>
    rw [uniqueFirst]
    refine List.nodup_cons.mpr ⟨?_, ih⟩
    intro hmem
    rw [mem_uniqueFirst] at hmem
    simp at hmem

theorem le_foldr_max {l : List ℕ} {x : ℕ} (h : x ∈ l) : x ≤ l.foldr max 0 := by
  induction l with
  | nil => cases h
  | cons a t ih =>
    rcases List.mem_cons.mp h with rfl | h
    · exact le_max_left _ _
    · exact le_trans (ih h) (le_max_right _ _)

theorem foldr_max_le {l : List ℕ} {b : ℕ} (h : ∀ x ∈ l, x ≤ b) :
    l.foldr max 0 ≤ b := by
  induction l with
  | nil => simp
  | cons a t ih =>
    simp only [List.foldr_cons]
    exact max_le (h a (by simp)) (ih fun x hx => h x (by simp [hx]))

theorem filter_eq_singleton {l : List (ℕ × ℕ × ℕ)} {c : ℕ × ℕ × ℕ}
    {p : (ℕ × ℕ × ℕ) → Bool} (hnd : l.Nodup) (hc : c ∈ l) (hpc : p c = true)
    (huniq : ∀ d ∈ l, p d = true → d = c) : l.filter p = [c] := by
  induction l with
  | nil => cases hc
  | cons a t ih =>
    rcases List.mem_cons.mp hc with rfl | hct
    · rw [List.filter_cons_of_pos hpc]
      have ht : t.filter p = [] := by
        rw [List.filter_eq_nil_iff]
        intro d hd hp
        have hdc : d = c := huniq d (List.mem_cons_of_mem _ hd) (by simpa using hp)
        subst hdc
        exact (List.nodup_cons.mp hnd).1 hd
      rw [ht]
    · have hac : a ≠ c := by
        intro he
        subst he
        exact (List.nodup_cons.mp hnd).1 hct
      have ha : p a = false := by
        rcases Bool.eq_false_or_eq_true (p a) with h | h
        · exact absurd (huniq a (List.mem_cons_self a t) h) hac
        · exact h
      rw [List.filter_cons_of_neg (by simp [ha])]
      exact ih (List.nodup_cons.mp hnd).2 hct
        (fun d hd hp => huniq d (List.mem_cons_of_mem _ hd) hp)

theorem mem_bgCandidates (colors : List (ℕ × ℕ × ℕ)) (e : ℕ × ℕ × ℕ) :
    e ∈ bgCandidates colors ↔
      e ∈ colors ∧ colors.count e = bgMaxFreq colors := by
  unfold bgCandidates
  rw [List.mem_filter, mem_uniqueFirst]
  simp

theorem bgMaxFreq_eq_count {colors : List (ℕ × ℕ × ℕ)} {c : ℕ × ℕ × ℕ}
    (hc : c ∈ colors)
    (hmax : ∀ d ∈ colors, colors.count d ≤ colors.count c) :
    bgMaxFreq colors = colors.count c := by
  apply le_antisymm
  · apply foldr_max_le
    intro x hx
    rw [List.mem_map] at hx
    obtain ⟨d, hd, rfl⟩ := hx
    exact hmax d ((mem_uniqueFirst d _).mp hd)
  · exact le_foldr_max (List.mem_map_of_mem _ ((mem_uniqueFirst c _).mpr hc))

theorem two_mem_le_length {α : Type} {l : List α} {a b : α}
    (ha : a ∈ l) (hb : b ∈ l) (hne : a ≠ b) : 2 ≤ l.length := by
  cases l with
  | nil => cases ha
  | cons x t =>
    cases t with
    | nil =>
      simp only [List.mem_singleton] at ha hb
      exact absurd (ha.trans hb.symm) hne
    | cons y u =>
      simp only [List.length_cons]
      omega

/-- C8: the detector samples the four corner colors; a color strictly more
frequent than every other sampled color is returned; on any tie the
candidate list is exactly the distinct maximum-frequency colors (at least
two of them, without duplicates) and the channel-wise floor-division
average of those tied candidates is returned — in particular corners
`A, A, B, B` yield the integer average of `A` and `B`. -/
theorem detect_bg_spec :
    (∀ (im : Image) (c : ℕ × ℕ × ℕ), c ∈ cornerColors im →
      (∀ d ∈ cornerColors im, d ≠ c →
        (cornerColors im).count d < (cornerColors im).count c) →
      detect_bg_color im = c) ∧
    (∀ (im : Image) (c1 c2 : ℕ × ℕ × ℕ), c1 ≠ c2 →
      c1 ∈ cornerColors im → c2 ∈ cornerColors im →
      (cornerColors im).count c1 = (cornerColors im).count c2 →
      (∀ d ∈ cornerColors im,
        (cornerColors im).count d ≤ (cornerColors im).count c1) →
      2 ≤ (bgCandidates (cornerColors im)).length ∧
      (bgCandidates (cornerColors im)).Nodup ∧
      (∀ e, e ∈ bgCandidates (cornerColors im) ↔
        (e ∈ cornerColors im ∧ ∀ d ∈ cornerColors im,
          (cornerColors im).count d ≤ (cornerColors im).count e)) ∧
      detect_bg_color im =
        (((bgCandidates (cornerColors im)).map (fun c => c.1)).sum /
            (bgCandidates (cornerColors im)).length,
         ((bgCandidates (cornerColors im)).map (fun c => c.2.1)).sum /
            (bgCandidates (cornerColors im)).length,
         ((bgCandidates (cornerColors im)).map (fun c => c.2.2)).sum /
            (bgCandidates (cornerColors im)).length)) ∧
    (∀ (im : Image) (A B : ℕ × ℕ × ℕ), A ≠ B → cornerColors im = [A, A, B, B] →
      detect_bg_color im =
        ((A.1 + B.1) / 2, (A.2.1 + B.2.1) / 2, (A.2.2 + B.2.2) / 2)) := by
  refine ⟨?_, ?_, ?_⟩
  · intro im c hc hstrict
    have hcu : c ∈ uniqueFirst (cornerColors im) := (mem_uniqueFirst c _).mpr hc
    have hne : uniqueFirst (cornerColors im) ≠ [] := by
      intro he
      rw [he] at hcu
      cases hcu
    have hmax : bgMaxFreq (cornerColors im) = (cornerColors im).count c := by
      apply bgMaxFreq_eq_count hc
      intro d hd
      rcases eq_or_ne d c with rfl | hdc
      · exact le_refl _
      · exact (hstrict d hd hdc).le
    have hcand : bgCandidates (cornerColors im) = [c] := by
      apply filter_eq_singleton (nodup_uniqueFirst _) hcu
      · simp [hmax]
      · intro d hd hp
        by_contra hdc
        have h1 := hstrict d ((mem_uniqueFirst d _).mp hd) hdc
        simp only [decide_eq_true_eq] at hp
        rw [hmax] at hp
        omega
    unfold detect_bg_color
    rw [if_neg hne, hcand]
    simp
  · intro im c1 c2 hne h1 h2 hcnt hmaxim
    have hm : bgMaxFreq (cornerColors im) = (cornerColors im).count c1 :=
      bgMaxFreq_eq_count h1 hmaxim
    have hmem : ∀ e, e ∈ bgCandidates (cornerColors im) ↔
        (e ∈ cornerColors im ∧ ∀ d ∈ cornerColors im,
          (cornerColors im).count d ≤ (cornerColors im).count e) := by
      intro e
      rw [mem_bgCandidates, hm]
      constructor
      · rintro ⟨he, hc⟩
        exact ⟨he, fun d hd => hc ▸ hmaxim d hd⟩
      · rintro ⟨he, hmaxe⟩
        exact ⟨he, le_antisymm (hmaxim e he) (hmaxe c1 h1)⟩
    have hc1m : c1 ∈ bgCandidates (cornerColors im) :=
      (hmem c1).mpr ⟨h1, hmaxim⟩
    have hc2m : c2 ∈ bgCandidates (cornerColors im) :=
      (hmem c2).mpr ⟨h2, fun d hd => hcnt ▸ hmaxim d hd⟩
    have hnd : (bgCandidates (cornerColors im)).Nodup :=
      (nodup_uniqueFirst _).filter _
    have hlen : 2 ≤ (bgCandidates (cornerColors im)).length :=
      two_mem_le_length hc1m hc2m hne
    refine ⟨hlen, hnd, hmem, ?_⟩
    have hu : uniqueFirst (cornerColors im) ≠ [] := by
      intro he
      have := (mem_uniqueFirst c1 _).mpr h1
      rw [he] at this
      cases this
    unfold detect_bg_color
    rw [if_neg hu, if_neg (by omega)]
  · intro im A B hAB hcorners
    have hBA : B ≠ A := Ne.symm hAB
    have hf1 : ([A, B, B].filter (fun d => d ≠ A)) = [B, B] := by
      simp [hBA]
    have hf2 : ([B].filter (fun d => d ≠ B)) = ([] : List (ℕ × ℕ × ℕ)) := by
      simp
    have huf : uniqueFirst [A, A, B, B] = [A, B] := by
      rw [uniqueFirst, hf1, uniqueFirst, hf2, uniqueFirst]
    have hcA : [A, A, B, B].count A = 2 := by
      simp [List.count_cons, hAB]
    have hcB : [A, A, B, B].count B = 2 := by
      simp [List.count_cons, hBA]
    have hmax : bgMaxFreq [A, A, B, B] = 2 := by
      unfold bgMaxFreq
      rw [huf]
      simp [hcA, hcB]
    have hcand : bgCandidates [A, A, B, B] = [A, B] := by
      unfold bgCandidates
      rw [huf, hmax]
      simp [hcA, hcB]
    unfold detect_bg_color
    rw [hcorners, huf, if_neg (by simp), hcand]
    simp

/-- C8 witness: the detector theorem applied to a concrete 2×2 image with
three equal corners (strict majority), to one whose corner colors are
`A, A, B, B` (2–2 tie averaged), and to one with four distinct corner
colors (four-way tie averaged). -/
theorem detect_bg_spec_witness :
    detect_bg_color ⟨2, 2, Mode.RGBA,
        fun x y => if x = 1 ∧ y = 1 then ⟨9, 9, 9, 255⟩ else ⟨5, 5, 5, 255⟩⟩ =
      (5, 5, 5) ∧
    detect_bg_color ⟨2, 2, Mode.RGBA,
        fun _ y => if y = 0 then ⟨10, 20, 30, 255⟩ else ⟨0, 0, 0, 255⟩⟩ =
      (5, 10, 15) ∧
    detect_bg_color ⟨2, 2, Mode.RGBA,
        fun x y => ⟨4 + 4 * x + 8 * y, 8 + 4 * x + 8 * y, 12 + 4 * x + 8 * y, 255⟩⟩ =
      (10, 14, 18) := by
  refine ⟨?_, ?_, ?_⟩
  · exact detect_bg_spec.1 _ (5, 5, 5) (by decide) (by decide)
  · exact (detect_bg_spec.2.2 _ (10, 20, 30) (0, 0, 0) (by decide)
      (by decide)).trans (by decide)
  · have h := (detect_bg_spec.2.1
      ⟨2, 2, Mode.RGBA,
        fun x y => ⟨4 + 4 * x + 8 * y, 8 + 4 * x + 8 * y, 12 + 4 * x + 8 * y, 255⟩⟩
      (4, 8, 12) (8, 12, 16) (by decide) (by decide) (by decide) (by decide)
      (by decide)).2.2.2
    refine h.trans ?_
    have hcc : cornerColors ⟨2, 2, Mode.RGBA,
        fun x y => ⟨4 + 4 * x + 8 * y, 8 + 4 * x + 8 * y, 12 + 4 * x + 8 * y, 255⟩⟩ =
        [(4, 8, 12), (8, 12, 16), (12, 16, 20), (16, 20, 24)] := by
      decide
    have hg1 : ([(8, 12, 16), (12, 16, 20), (16, 20, 24)].filter
        (fun d => d ≠ ((4, 8, 12) : ℕ × ℕ × ℕ))) =
        [(8, 12, 16), (12, 16, 20), (16, 20, 24)] := by
      decide
    have hg2 : ([(12, 16, 20), (16, 20, 24)].filter
        (fun d => d ≠ ((8, 12, 16) : ℕ × ℕ × ℕ))) =
        [(12, 16, 20), (16, 20, 24)] := by
      decide
    have hg3 : ([(16, 20, 24)].filter
        (fun d => d ≠ ((12, 16, 20) : ℕ × ℕ × ℕ))) = [(16, 20, 24)] := by
      decide
    have hg4 : (([] : List (ℕ × ℕ × ℕ)).filter
        (fun d => d ≠ ((16, 20, 24) : ℕ × ℕ × ℕ))) = [] := rfl
    have hu : uniqueFirst [(4, 8, 12), (8, 12, 16), (12, 16, 20), (16, 20, 24)] =
        [(4, 8, 12), (8, 12, 16), (12, 16, 20), (16, 20, 24)] := by
      rw [uniqueFirst, hg1, uniqueFirst, hg2, uniqueFirst, hg3, uniqueFirst,
        hg4, uniqueFirst]
    have hbc : bgCandidates [(4, 8, 12), (8, 12, 16), (12, 16, 20), (16, 20, 24)] =
        [(4, 8, 12), (8, 12, 16), (12, 16, 20), (16, 20, 24)] := by
      unfold bgCandidates bgMaxFreq
      rw [hu]
      decide
    rw [hcc, hbc]
    decide

/-! ### Whitespace and case insensitivity of the parser -/

theorem dropWhile_all {p : Char → Bool} {l : List Char}
    (h : ∀ c ∈ l, p c = true) : l.dropWhile p = [] := by
  induction l with
  | nil => rfl
  | cons a t ih =>
    rw [List.dropWhile_cons, if_pos (h a (by simp))]
    exact ih fun c hc => h c (by simp [hc])

theorem pyStrip_pad {u v : List Char} (s : List Char)
    (hu : ∀ c ∈ u, isPySpace c = true) (hv : ∀ c ∈ v, isPySpace c = true) :
    pyStrip (u ++ s ++ v) = pyStrip s := by
  unfold pyStrip
  rw [List.append_assoc, List.dropWhile_append, dropWhile_all hu]
  simp only [List.isEmpty_nil, if_true]
  rw [List.dropWhile_append]
  cases hse : (s.dropWhile isPySpace).isEmpty
  · rw [if_neg (by simp), List.reverse_append, List.dropWhile_append,
      dropWhile_all (fun c hc => hv c (List.mem_reverse.mp hc))]
    simp
  · rw [if_pos rfl, dropWhile_all hv, List.isEmpty_iff.mp hse]

theorem toNat_ofNat_small {n : ℕ} (h : n < 55296) : (Char.ofNat n).toNat = n := by
  have hv : n.isValidChar := Or.inl h
  rw [Char.ofNat, dif_pos hv]
  rfl

theorem toNat_pySwapChar (c : Char) :
    (pySwapChar c).toNat =
      if 97 ≤ c.toNat ∧ c.toNat ≤ 122 then c.toNat - 32
      else if 65 ≤ c.toNat ∧ c.toNat ≤ 90 then c.toNat + 32
      else c.toNat := by
  unfold pySwapChar
  split_ifs with h1 h2
  · exact toNat_ofNat_small (by omega)
  · exact toNat_ofNat_small (by omega)
  · rfl

theorem isPySpace_swap (c : Char) : isPySpace (pySwapChar c) = isPySpace c := by
  unfold isPySpace
  rw [decide_eq_decide, toNat_pySwapChar]
  split_ifs <;> omega

theorem isHexDigitC_swap (c : Char) :
    isHexDigitC (pySwapChar c) = isHexDigitC c := by
  unfold isHexDigitC
  rw [decide_eq_decide, toNat_pySwapChar]
  split_ifs <;> omega

theorem hexVal_swap (c : Char) : hexVal (pySwapChar c) = hexVal c := by
  unfold hexVal
  rw [toNat_pySwapChar]
  split_ifs <;> omega

theorem toNat_swap_low (c : Char) {k : ℕ} (hk : k < 65) :
    (pySwapChar c).toNat = k ↔ c.toNat = k := by
  rw [toNat_pySwapChar]
  split_ifs <;> omega

theorem pyIntHex2_swap (a b : Char) :
    pyIntHex2 (pySwapChar a) (pySwapChar b) = pyIntHex2 a b := by
  unfold pyIntHex2
  simp only [isHexDigitC_swap, isPySpace_swap, hexVal_swap,
    toNat_swap_low a (show (43 : ℕ) < 65 by omega),
    toNat_swap_low a (show (45 : ℕ) < 65 by omega)]

theorem map_swap_pyStrip (s : List Char) :
    pyStrip (s.map pySwapChar) = (pyStrip s).map pySwapChar := by
  have hps : (isPySpace ∘ pySwapChar) = isPySpace := funext isPySpace_swap
  unfold pyStrip
  rw [List.dropWhile_map, hps, ← List.map_reverse, List.dropWhile_map, hps,
    ← List.map_reverse]

theorem map_swap_stripHash (s : List Char) :
    stripHash (s.map pySwapChar) = (stripHash s).map pySwapChar := by
  cases s with
  | nil => rfl
  | cons c rest =>
    simp only [List.map_cons, stripHash]
    by_cases h : c.toNat = 35
    · rw [if_pos ((toNat_swap_low c (show (35 : ℕ) < 65 by omega)).mpr h),
        if_pos h]
    · rw [if_neg (fun hc => h ((toNat_swap_low c
        (show (35 : ℕ) < 65 by omega)).mp hc)), if_neg h]
      rfl

theorem map_swap_double3 (s : List Char) :
    double3 (s.map pySwapChar) = (double3 s).map pySwapChar := by
  unfold double3
  rw [List.length_map]
  split_ifs with h
  · rw [List.flatMap_map, List.map_flatMap]
    simp
  · rfl

theorem map_swap_getD (t : List Char) (i : ℕ) :
    (t.map pySwapChar).getD i ' ' = pySwapChar (t.getD i ' ') := by
  rw [List.getD_eq_getElem?_getD, List.getD_eq_getElem?_getD, List.getElem?_map]
  cases t[i]? with
  | none => rfl
  | some c => rfl

theorem parse_map_swap (s : List Char) :
    parse_hex_color (s.map pySwapChar) = parse_hex_color s := by
  unfold parse_hex_color
  simp only [map_swap_pyStrip, map_swap_stripHash, map_swap_double3,
    List.length_map, map_swap_getD, pyIntHex2_swap]

theorem parse_pad {u v : List Char} (s : List Char)
    (hu : ∀ c ∈ u, isPySpace c = true) (hv : ∀ c ∈ v, isPySpace c = true) :
    parse_hex_color (u ++ s ++ v) = parse_hex_color s := by
  unfold parse_hex_color
  rw [pyStrip_pad s hu hv]

/-- C10: surrounding whitespace is stripped before validation and hex
digits are case-insensitive — for a successfully parsed string, padding
with whitespace or swapping the case of every character yields the same
RGB triple. -/
theorem parse_hex_color_ws_case (u v s : List Char) (c : ℤ × ℤ × ℤ)
    (hu : ∀ ch ∈ u, isPySpace ch = true) (hv : ∀ ch ∈ v, isPySpace ch = true)
    (hok : parse_hex_color s = Except.ok c) :
    parse_hex_color (u ++ s ++ v) = Except.ok c ∧
    parse_hex_color (s.map pySwapChar) = Except.ok c :=
  ⟨(parse_pad s hu hv).trans hok, (parse_map_swap s).trans hok⟩

/-- C10 witness: the theorem applied to `"#f0A"` padded with a space and a
tab, and to its case-swapped form `"#F0a"`. -/
theorem parse_hex_color_ws_case_witness :
    parse_hex_color ([' '] ++ ['#', 'f', '0', 'A'] ++ ['\t']) =
      Except.ok (255, 0, 170) ∧
    parse_hex_color (['#', 'f', '0', 'A'].map pySwapChar) =
      Except.ok (255, 0, 170) :=
  parse_hex_color_ws_case [' '] ['\t'] ['#', 'f', '0', 'A'] (255, 0, 170)
    (by decide) (by decide) rfl
